import Mathlib

/-!
# Verification of BentoPDF core state modules

A shallow embedding in Lean 4 of the state-management and document-lifecycle
code of the BentoPDF client-side PDF editor, together with proofs of the
behavioural properties its specification states.

The embedding covers:
* the global page-selection state (`state.ts`: `selectPage`, `deselectPage`,
  `togglePageSelection`, `selectAllPages`, `clearPageSelection`,
  `getSelectedPages`);
* the document manager (`documentManager.ts`: `pushUndoState`, `undo`, `redo`,
  `updateDocumentBytes`, `createDocumentFromBytes`, `closeDocument`,
  `forceCloseDocument`, `downloadActiveDocument`);
* the OCR loop of `toolOperations.ts` (`ocr`);
* the render-task cancellation flow of `viewer.ts` (`renderCurrentPage`).

JavaScript numbers holding page indices are modelled as `Int`, byte buffers
as `List Nat`, and the external PDF parsers (`PDFDocument.load` /
`pdfjsLib.getDocument`) as an abstract parameter `pc : List Nat → Option Nat`
returning the page count on success and `none` on a parse failure.  Mutable
JavaScript objects that the code deep-copies are additionally modelled with a
small explicit arena (heap) where aliasing questions matter.
-/

namespace BentoPDF

/-! ## Arena: explicit heap for aliasing-sensitive statements

JavaScript arrays are mutable references.  Where the specification speaks
about deep copies being unaffected by later mutation of the live object, we
make the reference structure explicit: an `Arena α` is a store of cells of
type `α`, a reference is an index into it. -/

structure Arena (α : Type) where
  cells : List α
deriving Repr

/-- Dereference: `none` for a dangling reference. -/
def Arena.read {α : Type} (h : Arena α) (r : Nat) : Option α :=
  h.cells[r]?

/-- In-place mutation of the cell a reference points to. -/
def Arena.write {α : Type} (h : Arena α) (r : Nat) (v : α) : Arena α :=
  ⟨h.cells.set r v⟩

/-- Allocation of a fresh cell, returning the new store and the reference. -/
def Arena.alloc {α : Type} (h : Arena α) (v : α) : Arena α × Nat :=
  (⟨h.cells ++ [v]⟩, h.cells.length)

theorem Arena.read_alloc {α : Type} (h : Arena α) (v : α) :
    (h.alloc v).1.read (h.alloc v).2 = some v := by
  simp [Arena.alloc, Arena.read]

theorem Arena.read_alloc_old {α : Type} (h : Arena α) (v : α) (r : Nat)
    (hr : r < h.cells.length) :
    (h.alloc v).1.read r = h.read r := by
  simp [Arena.alloc, Arena.read, List.getElem?_append, hr]

theorem Arena.read_write_ne {α : Type} (h : Arena α) (r r' : Nat) (v : α)
    (hne : r ≠ r') : (h.write r' v).read r = h.read r := by
  simp [Arena.write, Arena.read, List.getElem?_set_ne (Ne.symm hne)]

/-! ## `state.ts`: global page selection

```ts
export function selectPage(index: number): void {
  if (!state.selectedPageIndices.includes(index)) {
    state.selectedPageIndices.push(index);
    state.selectedPageIndices.sort((a, b) => a - b);
  }
}
```
`Array.prototype.sort` with the numeric comparator `(a, b) => a - b` sorts
ascending; we model it by insertion sort with `(· ≤ ·)` (on the duplicate-free
lists that arise here every correct ascending sort agrees). -/

def jsSortAsc (l : List Int) : List Int :=
  List.insertionSort (· ≤ ·) l

structure SelState where
  selectedPageIndices : List Int
deriving Repr, DecidableEq

def selectPage (index : Int) (s : SelState) : SelState :=
  if index ∈ s.selectedPageIndices then s
  else ⟨jsSortAsc (s.selectedPageIndices ++ [index])⟩

/-- `indexOf` + `splice(idx, 1)` removes the first occurrence, if any. -/
def deselectPage (index : Int) (s : SelState) : SelState :=
  ⟨s.selectedPageIndices.erase index⟩

def togglePageSelection (index : Int) (s : SelState) : SelState :=
  if index ∈ s.selectedPageIndices then deselectPage index s
  else selectPage index s

/-- `Array.from({length: count}, (_, i) => i)` is `[0, …, count-1]`. -/
def selectAllPages (count : Nat) : SelState :=
  ⟨(List.range count).map Int.ofNat⟩

def clearPageSelection : SelState := ⟨[]⟩

def isPageSelected (index : Int) (s : SelState) : Bool :=
  s.selectedPageIndices.contains index

/-- The selection operations the UI can invoke. -/
inductive SelOp where
  | select (index : Int)
  | deselect (index : Int)
  | toggle (index : Int)
  | selectAll (count : Nat)
  | clear
deriving Repr, DecidableEq

def applySelOp (s : SelState) : SelOp → SelState
  | .select i => selectPage i s
  | .deselect i => deselectPage i s
  | .toggle i => togglePageSelection i s
  | .selectAll n => selectAllPages n
  | .clear => clearPageSelection

/-- The selection state reached from the initial (empty) state by a sequence
of UI operations. -/
def runSel (ops : List SelOp) : SelState :=
  ops.foldl applySelOp ⟨[]⟩

/-- `getSelectedPages` returns `[...state.selectedPageIndices]`: a freshly
allocated array holding the same elements.  In the arena model the live
selection lives in cell `stateRef`; the spread allocates a new cell. -/
def getSelectedPagesH (h : Arena (List Int)) (stateRef : Nat) :
    Arena (List Int) × Nat :=
  h.alloc ((h.read stateRef).getD [])

/-! ### Sortedness invariant -/

theorem sorted_jsSortAsc_of_nodup {l : List Int} (h : l.Nodup) :
    List.Sorted (· < ·) (jsSortAsc l) := by
  have hs : List.Sorted (· ≤ ·) (jsSortAsc l) :=
    List.sorted_insertionSort (· ≤ ·) l
  have hperm : List.Perm (jsSortAsc l) l := List.perm_insertionSort (· ≤ ·) l
  exact hs.lt_of_le (hperm.nodup_iff.mpr h)

theorem selectPage_sorted {s : SelState}
    (hs : s.selectedPageIndices.Sorted (· < ·)) (i : Int) :
    (selectPage i s).selectedPageIndices.Sorted (· < ·) := by
  unfold selectPage
  by_cases hmem : i ∈ s.selectedPageIndices
  · simpa [hmem] using hs
  · have hnodup : (s.selectedPageIndices ++ [i]).Nodup := by
      refine List.Nodup.append hs.nodup (List.nodup_singleton i) ?_
      intro a ha hb
      simp only [List.mem_singleton] at hb
      exact hmem (hb ▸ ha)
    simpa [hmem] using sorted_jsSortAsc_of_nodup hnodup

theorem deselectPage_sorted {s : SelState}
    (hs : s.selectedPageIndices.Sorted (· < ·)) (i : Int) :
    (deselectPage i s).selectedPageIndices.Sorted (· < ·) :=
  List.Pairwise.sublist (List.erase_sublist i s.selectedPageIndices) hs

theorem selectAllPages_sorted (n : Nat) :
    (selectAllPages n).selectedPageIndices.Sorted (· < ·) := by
  show List.Sorted (· < ·) ((List.range n).map Int.ofNat)
  refine List.Pairwise.map Int.ofNat (fun a b h => ?_) (List.pairwise_lt_range n)
  exact Int.ofNat_lt.mpr h

theorem applySelOp_sorted {s : SelState}
    (hs : s.selectedPageIndices.Sorted (· < ·)) (op : SelOp) :
    (applySelOp s op).selectedPageIndices.Sorted (· < ·) := by
  cases op with
  | select i => exact selectPage_sorted hs i
  | deselect i => exact deselectPage_sorted hs i
  | toggle i =>
      show ((togglePageSelection i s).selectedPageIndices).Sorted (· < ·)
      unfold togglePageSelection
      by_cases hmem : i ∈ s.selectedPageIndices
      · simpa [hmem] using deselectPage_sorted hs i
      · simpa [hmem] using selectPage_sorted hs i
  | selectAll n => exact selectAllPages_sorted n
  | clear => simp [clearPageSelection, applySelOp]

/-- Core invariant of the selection module: every reachable selection state is
strictly sorted (hence duplicate-free). -/
theorem runSel_sorted (ops : List SelOp) :
    (runSel ops).selectedPageIndices.Sorted (· < ·) := by
  rw [runSel]
  generalize hinit : (⟨[]⟩ : SelState) = s₀
  have h₀ : s₀.selectedPageIndices.Sorted (· < ·) := by
    subst hinit; simp
  clear hinit
  induction ops generalizing s₀ with
  | nil => simpa using h₀
  | cons op rest ih =>
      simpa using ih (applySelOp s₀ op) (applySelOp_sorted h₀ op)

/-! ## `toolOperations.ts`: the OCR loop

```ts
const selected = getSelectedPages();
const targets = selected.length ? selected.map(i => i + 1) : [doc.currentPage];
...
for (const pageNum of targets) {
  try {
    ... recognition ...
    fullText += `--- Page ${pageNum} ---\n` + (text || '') + '\n\n';
  } catch (err) {
    fullText += `--- Page ${pageNum} ---\n[Error during OCR]\n\n`;
  }
}
...
if (!fullText) fullText = '[No text recognized]';
```
The recognition engine (worker or in-process Tesseract) is abstracted as a
function from a page number to its outcome.  The cancellation flag stays
`false` in this embedding (no cancel event is delivered during the session).
JavaScript `text || ''` collapses an absent text to the empty string, which
the abstract outcome already carries. -/

inductive OcrPageResult where
  | ok (text : String)
  | err
deriving Repr, DecidableEq

def ocrTargets (selected : List Int) (currentPage : Int) : List Int :=
  if selected.length ≠ 0 then selected.map (· + 1) else [currentPage]

def ocrPageHeader (n : Int) : String :=
  "--- Page " ++ toString n ++ " ---\n"

/-- The string one loop iteration appends to `fullText` for page `n`. -/
def ocrBlock (recog : Int → OcrPageResult) (n : Int) : String :=
  match recog n with
  | .ok t => ocrPageHeader n ++ t ++ "\n\n"
  | .err => ocrPageHeader n ++ "[Error during OCR]\n\n"

/-- The `for (const pageNum of targets)` loop, accumulating `fullText`. -/
def ocrLoop (recog : Int → OcrPageResult) : List Int → String → String
  | [], fullText => fullText
  | n :: rest, fullText => ocrLoop recog rest (fullText ++ ocrBlock recog n)

/-- The final reported OCR output (lines 250–324 of `toolOperations.ts`). -/
def ocr (recog : Int → OcrPageResult) (targets : List Int) : String :=
  let fullText := ocrLoop recog targets ""
  if fullText = "" then "[No text recognized]" else fullText

theorem ocrLoop_acc (recog : Int → OcrPageResult) :
    ∀ (l : List Int) (acc : String),
      ocrLoop recog l acc = acc ++ ocrLoop recog l "" := by
  intro l
  induction l with
  | nil => intro acc; simp [ocrLoop]
  | cons n rest ih =>
      intro acc
      show ocrLoop recog rest (acc ++ ocrBlock recog n)
        = acc ++ ocrLoop recog rest ("" ++ ocrBlock recog n)
      rw [ih (acc ++ ocrBlock recog n), ih ("" ++ ocrBlock recog n),
        String.empty_append, String.append_assoc]

theorem ocrPageHeader_length_pos (n : Int) : 0 < (ocrPageHeader n).length := by
  have h9 : ("--- Page " : String).length = 9 := rfl
  simp [ocrPageHeader, String.length_append]
  omega

theorem ocrBlock_length_pos (recog : Int → OcrPageResult) (n : Int) :
    0 < (ocrBlock recog n).length := by
  have := ocrPageHeader_length_pos n
  unfold ocrBlock
  cases recog n with
  | ok t => simp [String.length_append]; omega
  | err => simp [String.length_append]; omega

theorem ocrLoop_ne_empty (recog : Int → OcrPageResult) (n : Int) (rest : List Int) :
    ocrLoop recog (n :: rest) "" ≠ "" := by
  intro hcontra
  have hlen : (ocrLoop recog (n :: rest) "").length = 0 := by rw [hcontra]; rfl
  rw [show ocrLoop recog (n :: rest) "" = ocrLoop recog rest ("" ++ ocrBlock recog n)
      from rfl,
    ocrLoop_acc recog rest, String.empty_append, String.length_append] at hlen
  have := ocrBlock_length_pos recog n
  omega

theorem ocrPageHeader_append_head (n : Int) (s : String) :
    ((ocrPageHeader n ++ s)).data.head? = some '-' := by
  have h : ("--- Page " : String).data = '-' :: ("-- Page " : String).data := rfl
  simp [ocrPageHeader, String.data_append, h]

/-- A nonempty accumulated OCR output starts with the character `'-'` of the
first page header, so it can never equal the sentinel. -/
theorem ocrLoop_head (recog : Int → OcrPageResult) (n : Int) (rest : List Int) :
    (ocrLoop recog (n :: rest) "").data.head? = some '-' := by
  rw [show ocrLoop recog (n :: rest) "" = ocrLoop recog rest ("" ++ ocrBlock recog n)
      from rfl,
    ocrLoop_acc recog rest, String.empty_append]
  unfold ocrBlock
  cases recog n with
  | ok t =>
      rw [String.append_assoc, String.append_assoc]
      exact ocrPageHeader_append_head n _
  | err =>
      rw [String.append_assoc]
      exact ocrPageHeader_append_head n _

/-- The sentinel is reported exactly when no page was processed: every
processed page contributes a nonempty block, and a nonempty accumulation
starts with `'-'` while the sentinel starts with `'['`. -/
theorem ocr_sentinel_iff (recog : Int → OcrPageResult) (targets : List Int) :
    (ocr recog targets = "[No text recognized]") ↔ targets = [] := by
  constructor
  · intro h
    cases targets with
    | nil => rfl
    | cons n rest =>
        exfalso
        unfold ocr at h
        rw [if_neg (ocrLoop_ne_empty recog n rest)] at h
        have hhead := ocrLoop_head recog n rest
        rw [h] at hhead
        exact absurd hhead (by decide)
  · intro h; subst h; rfl

/-- The targets of an OCR run are in strictly ascending page order: the
selection invariant makes `getSelectedPages` sorted, `map (+1)` preserves
that, and the single-page default is trivially sorted. -/
theorem ocrTargets_sorted (ops : List SelOp) (currentPage : Int) :
    List.Sorted (· < ·)
      (ocrTargets (runSel ops).selectedPageIndices currentPage) := by
  unfold ocrTargets
  by_cases hsel : (runSel ops).selectedPageIndices.length ≠ 0
  · rw [if_pos hsel]
    exact List.Pairwise.map _ (fun a b h => by omega) (runSel_sorted ops)
  · rw [if_neg hsel]
    simp

/-! ## `documentManager.ts`: documents, snapshots, undo/redo

Byte buffers are `List Nat`.  The two external parsers (`PDFDocument.load`
and `pdfjsLib.getDocument`) are modelled by one abstract deterministic
function `pc : List Nat → Option Nat` giving the page count of a byte buffer,
`none` when parsing fails (`PDFDocument.load` rejects).  The parsed handles
`pdfDoc` / `pdfJsDoc` are modelled by the byte buffer they were opened on
(`none` = null handle): a handle is *stale* exactly when its bytes differ
from the document's current `pdfBytes`.

JavaScript mutates the `Document` object field by field; an `await` that
rejects leaves all mutations made so far in place.  We embed each operation
as `Except Document _`: the `error` branch carries the document state at the
moment the rejection propagates. -/

structure PageData where
  id : String
  pageIndex : Nat
  rotation : Int
  deleted : Bool
deriving Repr, DecidableEq

structure DocumentSnapshot where
  pagesData : List PageData
  pdfBytes : List Nat
deriving Repr, DecidableEq

structure Document where
  id : String
  fileName : String
  pdfBytes : List Nat
  pdfDocBytes : Option (List Nat)
  pdfJsDocBytes : Option (List Nat)
  pageData : List PageData
  undoStack : List DocumentSnapshot
  redoStack : List DocumentSnapshot
  isDirty : Bool
  currentPage : Nat
deriving Repr, DecidableEq

/-- Lines 725–735: snapshot the current state, clear redo, mark dirty.
`JSON.parse(JSON.stringify(doc.pageData))` and `new Uint8Array(doc.pdfBytes)`
are deep copies; in the pure value model they are the values themselves
(their independence from the live object is settled separately in the arena
model, `pushSnapshotRef`). -/
def pushUndoState (doc : Document) : Document :=
  { doc with
    undoStack := doc.undoStack ++ [⟨doc.pageData, doc.pdfBytes⟩]
    redoStack := []
    isDirty := true }

/-- The deep copy inside `pushUndoState`, at the heap level: a fresh cell is
allocated holding the same contents as the live cell. -/
def pushSnapshotRef {α : Type} (h : Arena α) (liveRef : Nat) (dflt : α) :
    Arena α × Nat :=
  h.alloc ((h.read liveRef).getD dflt)

/-- Lines 737–759 (`undo`).  `getLast?`/`dropLast` model
`undoStack.pop()`; the current state is pushed onto `redoStack` first, so a
rejection of `PDFDocument.load` leaves `pageData`/`pdfBytes` already
restored but both handles stale (the `error` branch). -/
def undo (pc : List Nat → Option Nat) (doc : Document) :
    Except Document (Bool × Document) :=
  match doc.undoStack.getLast? with
  | none => .ok (false, doc)
  | some snapshot =>
      let currentSnapshot : DocumentSnapshot := ⟨doc.pageData, doc.pdfBytes⟩
      let d1 := { doc with redoStack := doc.redoStack ++ [currentSnapshot] }
      let d2 := { d1 with undoStack := d1.undoStack.dropLast }
      let d3 := { d2 with
        pageData := snapshot.pagesData, pdfBytes := snapshot.pdfBytes }
      match pc snapshot.pdfBytes with
      | none => .error d3
      | some _ => .ok (true, { d3 with
          pdfDocBytes := some snapshot.pdfBytes
          pdfJsDocBytes := some snapshot.pdfBytes })

/-- Lines 761–783 (`redo`): symmetric to `undo` with the stacks swapped. -/
def redo (pc : List Nat → Option Nat) (doc : Document) :
    Except Document (Bool × Document) :=
  match doc.redoStack.getLast? with
  | none => .ok (false, doc)
  | some snapshot =>
      let currentSnapshot : DocumentSnapshot := ⟨doc.pageData, doc.pdfBytes⟩
      let d1 := { doc with undoStack := doc.undoStack ++ [currentSnapshot] }
      let d2 := { d1 with redoStack := d1.redoStack.dropLast }
      let d3 := { d2 with
        pageData := snapshot.pagesData, pdfBytes := snapshot.pdfBytes }
      match pc snapshot.pdfBytes with
      | none => .error d3
      | some _ => .ok (true, { d3 with
          pdfDocBytes := some snapshot.pdfBytes
          pdfJsDocBytes := some snapshot.pdfBytes })

/-- The page record built at line 802 (`Date.now()` is the parameter `now`). -/
def mkPageData (docId : String) (now : Nat) (i : Nat) : PageData :=
  ⟨"page-" ++ docId ++ "-" ++ toString i ++ "-" ++ toString now, i, 0, false⟩

/-- Lines 789–812 (`updateDocumentBytes`): push the undo snapshot, assign
the new bytes, then reparse — a parse failure therefore rejects *after*
`undoStack`, `isDirty` and `pdfBytes` have already been mutated (the `error`
branch carries that partially-updated document). -/
def updateDocumentBytes (pc : List Nat → Option Nat) (now : Nat)
    (doc : Document) (newBytes : List Nat) : Except Document Document :=
  let d1 := pushUndoState doc
  let d2 := { d1 with pdfBytes := newBytes }
  match pc newBytes with
  | none => .error d2
  | some newPageCount =>
      let d3 := { d2 with
        pdfDocBytes := some newBytes, pdfJsDocBytes := some newBytes }
      let d4 :=
        if newPageCount ≠ (d3.pageData.filter (fun p => !p.deleted)).length then
          { d3 with
            pageData := (List.range newPageCount).map (mkPageData d3.id now) }
        else d3
      .ok d4

/-- Lines 160–168: the initial page records of a freshly opened document
(built before `tabIdCounter` is incremented). -/
def initialPageData (tabIdCounter : Nat) (pageCount : Nat) : List PageData :=
  (List.range pageCount).map fun i =>
    ⟨"page-" ++ toString tabIdCounter ++ "-" ++ toString i, i, 0, false⟩

/-- The document record built at lines 170–181 of `createDocumentFromBytes`
(`doc-${++tabIdCounter}` increments the counter first). -/
def mkDocument (tabIdCounter : Nat) (bytes : List Nat) (fileName : String)
    (pageCount : Nat) : Document :=
  { id := "doc-" ++ toString (tabIdCounter + 1)
    fileName := fileName
    pdfBytes := bytes
    pdfDocBytes := some bytes
    pdfJsDocBytes := some bytes
    pageData := initialPageData tabIdCounter pageCount
    undoStack := []
    redoStack := []
    isDirty := false
    currentPage := 1 }

/-- `undo` as a state transformer, discarding the returned boolean. -/
def undoStep (pc : List Nat → Option Nat) (doc : Document) :
    Except Document Document :=
  (undo pc doc).map Prod.snd

def redoStep (pc : List Nat → Option Nat) (doc : Document) :
    Except Document Document :=
  (redo pc doc).map Prod.snd

/-- `k` consecutive `undo` calls. -/
def undoN (pc : List Nat → Option Nat) : Nat → Document → Except Document Document
  | 0, doc => .ok doc
  | k + 1, doc => undoStep pc doc >>= undoN pc k

/-- `k` consecutive `redo` calls. -/
def redoN (pc : List Nat → Option Nat) : Nat → Document → Except Document Document
  | 0, doc => .ok doc
  | k + 1, doc => redoStep pc doc >>= redoN pc k

/-- A sequence of `updateDocumentBytes` mutations. -/
def runUpdates (pc : List Nat → Option Nat) (now : Nat) :
    Document → List (List Nat) → Except Document Document
  | doc, [] => .ok doc
  | doc, b :: rest =>
      updateDocumentBytes pc now doc b >>= fun d => runUpdates pc now d rest

/-- Every byte buffer reachable by undo/redo parses. -/
def goodDoc (pc : List Nat → Option Nat) (doc : Document) : Prop :=
  (pc doc.pdfBytes).isSome
    ∧ (∀ s ∈ doc.undoStack, (pc s.pdfBytes).isSome)
    ∧ (∀ s ∈ doc.redoStack, (pc s.pdfBytes).isSome)

/-- Both parsed handles are open on the current bytes (the spec's "same edit
generation" invariant). -/
def consistentHandles (doc : Document) : Prop :=
  doc.pdfDocBytes = some doc.pdfBytes ∧ doc.pdfJsDocBytes = some doc.pdfBytes

/-- Reopening both handles on the current bytes (what a successful
reparse leaves behind). -/
def refreshHandles (doc : Document) : Document :=
  { doc with
    pdfDocBytes := some doc.pdfBytes
    pdfJsDocBytes := some doc.pdfBytes }

theorem refreshHandles_eq_self {doc : Document} (h : consistentHandles doc) :
    refreshHandles doc = doc := by
  obtain ⟨h1, h2⟩ := h
  cases doc
  simp_all [refreshHandles]

theorem exists_concat_of_getLast? {α : Type} {l : List α} {a : α}
    (h : l.getLast? = some a) : ∃ l', l = l' ++ [a] := by
  rcases List.eq_nil_or_concat l with rfl | ⟨L, b, rfl⟩
  · simp at h
  · rw [List.concat_eq_append, List.getLast?_concat] at h
    exact ⟨L, by simp [List.concat_eq_append, Option.some_inj.mp h]⟩

theorem undo_spec (pc : List Nat → Option Nat) (doc : Document)
    (us : List DocumentSnapshot) (s : DocumentSnapshot)
    (hstack : doc.undoStack = us ++ [s]) (m : Nat)
    (hm : pc s.pdfBytes = some m) :
    undo pc doc = .ok (true,
      { doc with
        undoStack := us
        redoStack := doc.redoStack ++ [⟨doc.pageData, doc.pdfBytes⟩]
        pageData := s.pagesData
        pdfBytes := s.pdfBytes
        pdfDocBytes := some s.pdfBytes
        pdfJsDocBytes := some s.pdfBytes }) := by
  unfold undo
  rw [hstack, List.getLast?_concat]
  simp only [hm, List.dropLast_concat]

theorem redo_spec (pc : List Nat → Option Nat) (doc : Document)
    (rs : List DocumentSnapshot) (s : DocumentSnapshot)
    (hstack : doc.redoStack = rs ++ [s]) (m : Nat)
    (hm : pc s.pdfBytes = some m) :
    redo pc doc = .ok (true,
      { doc with
        undoStack := doc.undoStack ++ [⟨doc.pageData, doc.pdfBytes⟩]
        redoStack := rs
        pageData := s.pagesData
        pdfBytes := s.pdfBytes
        pdfDocBytes := some s.pdfBytes
        pdfJsDocBytes := some s.pdfBytes }) := by
  unfold redo
  rw [hstack, List.getLast?_concat]
  simp only [hm, List.dropLast_concat]

theorem undo_good {pc : List Nat → Option Nat} {doc d' : Document} {b : Bool}
    (hg : goodDoc pc doc) (h : undo pc doc = .ok (b, d')) : goodDoc pc d' := by
  obtain ⟨hcur, hund, hred⟩ := hg
  match hlast : doc.undoStack.getLast? with
  | none =>
      unfold undo at h
      rw [hlast] at h
      cases h
      exact ⟨hcur, hund, hred⟩
  | some s =>
      obtain ⟨us, hstack⟩ := exists_concat_of_getLast? hlast
      have hsmem : s ∈ doc.undoStack := by rw [hstack]; simp
      obtain ⟨m, hm⟩ := Option.isSome_iff_exists.mp (hund s hsmem)
      rw [undo_spec pc doc us s hstack m hm] at h
      cases h
      refine ⟨by simp [hm], ?_, ?_⟩
      · intro t ht
        exact hund t (by rw [hstack]; exact List.mem_append_left _ ht)
      · intro t ht
        rcases List.mem_append.mp ht with h1 | h1
        · exact hred t h1
        · rw [List.mem_singleton.mp h1]
          exact hcur

theorem undo_fail (pc : List Nat → Option Nat) (doc : Document)
    (us : List DocumentSnapshot) (s : DocumentSnapshot)
    (hstack : doc.undoStack = us ++ [s]) (hpc : pc s.pdfBytes = none) :
    undo pc doc = .error
      { doc with
        undoStack := us
        redoStack := doc.redoStack ++ [⟨doc.pageData, doc.pdfBytes⟩]
        pageData := s.pagesData
        pdfBytes := s.pdfBytes } := by
  unfold undo
  rw [hstack, List.getLast?_concat]
  simp only [hpc, List.dropLast_concat]

theorem undo_consistent {pc : List Nat → Option Nat} {doc d' : Document}
    (h : undo pc doc = .ok (true, d')) : consistentHandles d' := by
  match hlast : doc.undoStack.getLast? with
  | none =>
      unfold undo at h
      rw [hlast] at h
      simp at h
  | some s =>
      obtain ⟨us, hstack⟩ := exists_concat_of_getLast? hlast
      match hpc : pc s.pdfBytes with
      | none =>
          rw [undo_fail pc doc us s hstack hpc] at h
          simp at h
      | some m =>
          rw [undo_spec pc doc us s hstack m hpc] at h
          simp only [Except.ok.injEq, Prod.mk.injEq, true_and] at h
          subst h
          exact ⟨rfl, rfl⟩

/-- `undo` immediately followed by `redo`: the pre-`undo` state is restored
in full (the handles end up reopened on the same — unchanged — bytes). -/
theorem redo_of_undo (pc : List Nat → Option Nat) (doc : Document)
    (us : List DocumentSnapshot) (s : DocumentSnapshot)
    (hstack : doc.undoStack = us ++ [s]) (m : Nat)
    (hm : pc s.pdfBytes = some m) (n : Nat) (hn : pc doc.pdfBytes = some n) :
    ∃ d', undo pc doc = .ok (true, d')
      ∧ redo pc d' = .ok (true, refreshHandles doc) := by
  refine ⟨_, undo_spec pc doc us s hstack m hm, ?_⟩
  rw [redo_spec pc _ doc.redoStack ⟨doc.pageData, doc.pdfBytes⟩ rfl n hn]
  show Except.ok (true, _) = Except.ok (true, _)
  congr 2
  rw [refreshHandles, ← hstack]

theorem exc_bind_ok {ε α β : Type} (a : α) (f : α → Except ε β) :
    (Except.ok a : Except ε α) >>= f = f a := rfl

theorem exc_bind_error {ε α β : Type} (e : ε) (f : α → Except ε β) :
    (Except.error e : Except ε α) >>= f = Except.error e := rfl

theorem exc_bind_assoc {ε α β γ : Type} (x : Except ε α)
    (f : α → Except ε β) (g : β → Except ε γ) :
    (x >>= f) >>= g = x >>= fun a => f a >>= g := by
  cases x <;> rfl

/-- `k+1` redo calls are `k` redo calls followed by one more. -/
theorem redoN_succ_right (pc : List Nat → Option Nat) :
    ∀ (k : Nat) (d : Document),
      redoN pc (k + 1) d = redoN pc k d >>= redoStep pc := by
  intro k
  induction k with
  | zero =>
      intro d
      show redoStep pc d >>= redoN pc 0 = redoN pc 0 d >>= redoStep pc
      have hr : redoN pc 0 d >>= redoStep pc = redoStep pc d := rfl
      rw [hr]
      cases hstep : redoStep pc d <;> rfl
  | succ k ih =>
      intro d
      show redoStep pc d >>= redoN pc (k + 1)
        = redoN pc (k + 1) d >>= redoStep pc
      calc redoStep pc d >>= redoN pc (k + 1)
          = redoStep pc d >>= fun y => redoN pc k y >>= redoStep pc := by
            cases hstep : redoStep pc d
            · rfl
            · rw [exc_bind_ok, exc_bind_ok, ih]
        _ = (redoStep pc d >>= redoN pc k) >>= redoStep pc :=
            (exc_bind_assoc _ _ _).symm
        _ = redoN pc (k + 1) d >>= redoStep pc := rfl

/-- `k` undos followed by `k` redos land back on the starting document
(whose handles were already consistent). -/
theorem undoN_redoN_cancel (pc : List Nat → Option Nat) :
    ∀ (k : Nat) (d : Document), goodDoc pc d → consistentHandles d →
      k ≤ d.undoStack.length → (undoN pc k d >>= redoN pc k) = .ok d := by
  intro k
  induction k with
  | zero => intro d _ _ _; rfl
  | succ k ih =>
      intro d hg hc hlen
      rcases List.eq_nil_or_concat d.undoStack with hnil | ⟨us, s, hstack⟩
      · rw [hnil] at hlen; simp at hlen
      rw [List.concat_eq_append] at hstack
      obtain ⟨m, hm⟩ :=
        Option.isSome_iff_exists.mp (hg.2.1 s (by rw [hstack]; simp))
      obtain ⟨n, hn⟩ := Option.isSome_iff_exists.mp hg.1
      obtain ⟨d₁, hundo, hredo⟩ := redo_of_undo pc d us s hstack m hm n hn
      have hstep : undoStep pc d = .ok d₁ := by rw [undoStep, hundo]; rfl
      have hg₁ : goodDoc pc d₁ := undo_good hg hundo
      have hc₁ : consistentHandles d₁ := undo_consistent hundo
      have hd₁stack : d₁.undoStack = us := by
        have hspec := undo_spec pc d us s hstack m hm
        rw [hundo] at hspec
        simp only [Except.ok.injEq, Prod.mk.injEq, true_and] at hspec
        rw [hspec]
      have hlen₁ : k ≤ d₁.undoStack.length := by
        have hdlen : d.undoStack.length = us.length + 1 := by rw [hstack]; simp
        rw [hd₁stack]; omega
      have h1 : undoN pc (k + 1) d = undoN pc k d₁ := by
        show undoStep pc d >>= undoN pc k = undoN pc k d₁
        rw [hstep]
        exact exc_bind_ok d₁ (undoN pc k)
      calc undoN pc (k + 1) d >>= redoN pc (k + 1)
          = undoN pc k d₁ >>= redoN pc (k + 1) := by rw [h1]
        _ = undoN pc k d₁ >>= fun x => redoN pc k x >>= redoStep pc := by
            cases hx : undoN pc k d₁
            · rfl
            · rw [exc_bind_ok, exc_bind_ok]
              exact redoN_succ_right pc k _
        _ = (undoN pc k d₁ >>= redoN pc k) >>= redoStep pc :=
            (exc_bind_assoc _ _ _).symm
        _ = Except.ok d₁ >>= redoStep pc := by rw [ih d₁ hg₁ hc₁ hlen₁]
        _ = redoStep pc d₁ := rfl
        _ = .ok d := by
            rw [redoStep, hredo]
            simp [Except.map, refreshHandles_eq_self hc]

/-- Fully unwinding a non-empty undo stack restores the bottom-most
snapshot as the current state. -/
theorem undoN_restores (pc : List Nat → Option Nat) :
    ∀ (m : Nat) (d : Document) (s : DocumentSnapshot)
      (us : List DocumentSnapshot),
      us.length = m → d.undoStack = s :: us → goodDoc pc d →
      ∃ dO, undoN pc (m + 1) d = .ok dO ∧ dO.pdfBytes = s.pdfBytes
        ∧ dO.pageData = s.pagesData ∧ dO.undoStack = [] := by
  intro m
  induction m with
  | zero =>
      intro d s us hlen hstack hg
      have hus : us = [] := List.length_eq_zero.mp hlen
      subst hus
      have hstack' : d.undoStack = [] ++ [s] := by simpa using hstack
      obtain ⟨mm, hm⟩ :=
        Option.isSome_iff_exists.mp (hg.2.1 s (by rw [hstack]; simp))
      have hspec := undo_spec pc d [] s hstack' mm hm
      refine ⟨{ d with
          undoStack := []
          redoStack := d.redoStack ++ [⟨d.pageData, d.pdfBytes⟩]
          pageData := s.pagesData
          pdfBytes := s.pdfBytes
          pdfDocBytes := some s.pdfBytes
          pdfJsDocBytes := some s.pdfBytes }, ?_, rfl, rfl, rfl⟩
      show undoStep pc d >>= undoN pc 0 = _
      rw [undoStep, hspec]
      rfl
  | succ m ih =>
      intro d s us hlen hstack hg
      rcases List.eq_nil_or_concat us with rfl | ⟨us', t, rfl⟩
      · simp at hlen
      rw [List.concat_eq_append] at hstack hlen
      have hstack' : d.undoStack = (s :: us') ++ [t] := by simpa using hstack
      obtain ⟨mm, hm⟩ :=
        Option.isSome_iff_exists.mp (hg.2.1 t (by rw [hstack']; simp))
      have hspec := undo_spec pc d (s :: us') t hstack' mm hm
      have hstep : undoStep pc d = .ok
          { d with
            undoStack := s :: us'
            redoStack := d.redoStack ++ [⟨d.pageData, d.pdfBytes⟩]
            pageData := t.pagesData
            pdfBytes := t.pdfBytes
            pdfDocBytes := some t.pdfBytes
            pdfJsDocBytes := some t.pdfBytes } := by
        rw [undoStep, hspec]; rfl
      have hlen' : us'.length = m := by
        simp only [List.length_append, List.length_singleton] at hlen
        omega
      obtain ⟨dO, hrun, hb, hp, hu⟩ :=
        ih _ s us' hlen' rfl (undo_good hg hspec)
      refine ⟨dO, ?_, hb, hp, hu⟩
      show undoStep pc d >>= undoN pc (m + 1) = .ok dO
      rw [hstep, exc_bind_ok]
      exact hrun

/-- A successful `updateDocumentBytes` call: one snapshot of the
pre-mutation state pushed, redo stack cleared, dirty flag set, bytes and
handles moved to the new buffer. -/
theorem updateDocumentBytes_ok (pc : List Nat → Option Nat) (now : Nat)
    (d : Document) (b : List Nat) (n : Nat) (hb : pc b = some n) :
    ∃ d', updateDocumentBytes pc now d b = .ok d'
      ∧ d'.undoStack = d.undoStack ++ [⟨d.pageData, d.pdfBytes⟩]
      ∧ d'.redoStack = [] ∧ d'.pdfBytes = b
      ∧ d'.pdfDocBytes = some b ∧ d'.pdfJsDocBytes = some b
      ∧ d'.isDirty = true := by
  unfold updateDocumentBytes pushUndoState
  simp only [hb]
  split
  · exact ⟨_, rfl, rfl, rfl, rfl, rfl, rfl, rfl⟩
  · exact ⟨_, rfl, rfl, rfl, rfl, rfl, rfl, rfl⟩

/-- Running a list of parseable updates from a good, handle-consistent
document: the run succeeds, stays good and consistent, appends one snapshot
per update to the undo stack, and the first appended snapshot is the
pre-run state. -/
theorem runUpdates_ok (pc : List Nat → Option Nat) (now : Nat) :
    ∀ (bs : List (List Nat)) (d : Document), goodDoc pc d →
      consistentHandles d → (∀ b ∈ bs, (pc b).isSome) →
      ∃ dN newSnaps,
        runUpdates pc now d bs = .ok dN ∧ goodDoc pc dN
        ∧ consistentHandles dN
        ∧ dN.undoStack = d.undoStack ++ newSnaps
        ∧ newSnaps.length = bs.length
        ∧ newSnaps.head? =
            (bs.head?.map fun _ => (⟨d.pageData, d.pdfBytes⟩ : DocumentSnapshot))
        ∧ (bs = [] → dN = d) := by
  intro bs
  induction bs with
  | nil =>
      intro d hg hc _
      exact ⟨d, [], rfl, hg, hc, by simp, rfl, rfl, fun _ => rfl⟩
  | cons b rest ih =>
      intro d hg hc hbs
      obtain ⟨nPages, hb⟩ := Option.isSome_iff_exists.mp (hbs b (by simp))
      obtain ⟨d₄, hupd, hu4, hr4, hb4, hd4, hj4, hdirty4⟩ :=
        updateDocumentBytes_ok pc now d b nPages hb
      have hg₄ : goodDoc pc d₄ := by
        refine ⟨by rw [hb4, hb]; rfl, ?_, ?_⟩
        · intro t ht
          rw [hu4] at ht
          rcases List.mem_append.mp ht with h1 | h1
          · exact hg.2.1 t h1
          · rw [List.mem_singleton.mp h1]; exact hg.1
        · intro t ht
          rw [hr4] at ht
          simp at ht
      have hc₄ : consistentHandles d₄ := by
        constructor
        · rw [hd4, hb4]
        · rw [hj4, hb4]
      have hbs' : ∀ x ∈ rest, (pc x).isSome := fun x hx => hbs x (by simp [hx])
      obtain ⟨dN, newSnaps', hrun, hgN, hcN, hustack, hslen, hshead, -⟩ :=
        ih d₄ hg₄ hc₄ hbs'
      refine ⟨dN, ⟨d.pageData, d.pdfBytes⟩ :: newSnaps', ?_, hgN, hcN, ?_, ?_, ?_, ?_⟩
      · show updateDocumentBytes pc now d b >>= (fun x => runUpdates pc now x rest) = .ok dN
        rw [hupd, exc_bind_ok]
        exact hrun
      · rw [hustack, hu4, List.append_assoc]
        rfl
      · simp [hslen]
      · rfl
      · intro hcontra; cases hcontra

/-! ## The document registry

`documents`, `activeDocIndex` and `tabIdCounter` are module-level state in
`documentManager.ts`; here they form a `Registry` record threaded through the
operations.  `activeDocIndex` is a JavaScript number that can hold `-1`, so it
is an `Int`. -/

structure Registry where
  documents : List Document
  activeDocIndex : Int
  tabIdCounter : Nat
deriving Repr, DecidableEq

/-- Initial module state: `const documents = []; let activeDocIndex = -1;
let tabIdCounter = 0;`. -/
def initRegistry : Registry := ⟨[], -1, 0⟩

/-- Lines 600–636 (`createDocumentFromBytes`): `PDFDocument.load` runs before
any registry mutation, so a parse failure leaves the registry unchanged. -/
def createDocumentFromBytes (pc : List Nat → Option Nat) (r : Registry)
    (bytes : List Nat) (fileName : String) : Registry :=
  match pc bytes with
  | none => r
  | some pageCount =>
      let doc := mkDocument r.tabIdCounter bytes fileName pageCount
      { documents := r.documents ++ [doc]
        activeDocIndex := Int.ofNat r.documents.length
        tabIdCounter := r.tabIdCounter + 1 }

/-- The active-index adjustment shared by `closeDocument` and
`forceCloseDocument` (lines 652–660 / 679–686), applied after
`documents.splice(index, 1)`. -/
def adjustActiveIndex (active : Int) (newLen : Nat) (index : Nat) : Int :=
  if newLen = 0 then -1
  else if active ≥ (newLen : Int) then (newLen : Int) - 1
  else if active > (index : Int) then active - 1
  else active

/-- Lines 638–669 (`closeDocument`): refuses on a dirty document. -/
def closeDocument (r : Registry) (docId : String) : Registry × Bool :=
  match r.documents.findIdx? (fun d => d.id == docId) with
  | none => (r, false)
  | some index =>
      match r.documents[index]? with
      | none => (r, false)
      | some doc =>
          if doc.isDirty then (r, false)
          else
            let docs' := r.documents.eraseIdx index
            ({ r with
               documents := docs'
               activeDocIndex :=
                 adjustActiveIndex r.activeDocIndex docs'.length index }, true)

/-- Lines 671–693 (`forceCloseDocument`): same removal, no dirty check. -/
def forceCloseDocument (r : Registry) (docId : String) : Registry :=
  match r.documents.findIdx? (fun d => d.id == docId) with
  | none => r
  | some index =>
      let docs' := r.documents.eraseIdx index
      { r with
        documents := docs'
        activeDocIndex := adjustActiveIndex r.activeDocIndex docs'.length index }

inductive RegOp where
  | openDoc (bytes : List Nat) (fileName : String)
  | close (docId : String)
  | forceClose (docId : String)
deriving Repr, DecidableEq

def applyRegOp (pc : List Nat → Option Nat) (r : Registry) : RegOp → Registry
  | .openDoc bytes fileName => createDocumentFromBytes pc r bytes fileName
  | .close docId => (closeDocument r docId).1
  | .forceClose docId => forceCloseDocument r docId

def runReg (pc : List Nat → Option Nat) (ops : List RegOp) : Registry :=
  ops.foldl (applyRegOp pc) initRegistry

/-- The registry invariant: `activeDocIndex` is `-1` exactly on an empty
registry and otherwise a valid index. -/
def RegInv (r : Registry) : Prop :=
  (r.documents = [] ↔ r.activeDocIndex = -1)
    ∧ (r.documents ≠ [] →
        0 ≤ r.activeDocIndex ∧ r.activeDocIndex < r.documents.length)

theorem regInv_init : RegInv initRegistry := by
  constructor
  · simp [initRegistry]
  · intro h; exact absurd rfl h

theorem regInv_create (pc : List Nat → Option Nat) (r : Registry)
    (bytes : List Nat) (fileName : String) (hinv : RegInv r) :
    RegInv (createDocumentFromBytes pc r bytes fileName) := by
  unfold createDocumentFromBytes
  cases hpc : pc bytes with
  | none => exact hinv
  | some pageCount =>
      constructor
      · simp
      · intro _
        simp

theorem regInv_adjust (active : Int) (oldLen newLen index : Nat)
    (_hremoved : index < oldLen) (hlen : newLen = oldLen - 1)
    (hactive : 0 ≤ active ∧ active < oldLen) :
    (newLen = 0 → adjustActiveIndex active newLen index = -1)
      ∧ (newLen ≠ 0 →
          0 ≤ adjustActiveIndex active newLen index
            ∧ adjustActiveIndex active newLen index < newLen) := by
  unfold adjustActiveIndex
  constructor
  · intro h0; rw [if_pos h0]
  · intro hne
    rw [if_neg hne]
    by_cases h1 : active ≥ (newLen : Int)
    · rw [if_pos h1]; omega
    · rw [if_neg h1]
      by_cases h2 : active > (index : Int)
      · rw [if_pos h2]; omega
      · rw [if_neg h2]; omega

theorem regInv_close (r : Registry) (docId : String) (hinv : RegInv r) :
    RegInv (closeDocument r docId).1 := by
  unfold closeDocument
  cases hfind : r.documents.findIdx? (fun d => d.id == docId) with
  | none => exact hinv
  | some index =>
      have hlt : index < r.documents.length :=
        (List.findIdx?_eq_some_iff_findIdx_eq.mp hfind).1
      show RegInv (match r.documents[index]? with
        | none => (r, false)
        | some doc =>
            if doc.isDirty = true then (r, false)
            else ({ documents := r.documents.eraseIdx index
                    activeDocIndex := adjustActiveIndex r.activeDocIndex
                      (r.documents.eraseIdx index).length index
                    tabIdCounter := r.tabIdCounter }, true)).1
      cases hget : r.documents[index]? with
      | none => exact hinv
      | some doc =>
          show RegInv (if doc.isDirty = true then (r, false)
            else ({ documents := r.documents.eraseIdx index
                    activeDocIndex := adjustActiveIndex r.activeDocIndex
                      (r.documents.eraseIdx index).length index
                    tabIdCounter := r.tabIdCounter }, true)).1
          by_cases hdirty : doc.isDirty = true
          · rw [if_pos hdirty]; exact hinv
          · rw [if_neg hdirty]
            have hne : r.documents ≠ [] := by
              intro hnil; rw [hnil] at hlt; simp at hlt
            have hlen : (r.documents.eraseIdx index).length
                = r.documents.length - 1 := by
              rw [List.length_eraseIdx, if_pos hlt]
            obtain ⟨hadj0, hadjpos⟩ :=
              regInv_adjust r.activeDocIndex r.documents.length
                (r.documents.eraseIdx index).length index hlt hlen
                ((hinv.2) hne)
            constructor
            · show (r.documents.eraseIdx index = []
                ↔ adjustActiveIndex r.activeDocIndex
                    (r.documents.eraseIdx index).length index = -1)
              constructor
              · intro hnil
                exact hadj0 (by rw [hnil]; rfl)
              · intro hval
                by_cases hlen0 : (r.documents.eraseIdx index).length = 0
                · exact List.length_eq_zero.mp hlen0
                · have h2 := (hadjpos hlen0).1
                  rw [hval] at h2
                  omega
            · intro hne'
              have hlen0 : (r.documents.eraseIdx index).length ≠ 0 := by
                intro h0; exact hne' (List.length_eq_zero.mp h0)
              show 0 ≤ adjustActiveIndex r.activeDocIndex
                    (r.documents.eraseIdx index).length index
                ∧ adjustActiveIndex r.activeDocIndex
                    (r.documents.eraseIdx index).length index
                  < ((r.documents.eraseIdx index).length : Int)
              exact hadjpos hlen0

theorem regInv_forceClose (r : Registry) (docId : String) (hinv : RegInv r) :
    RegInv (forceCloseDocument r docId) := by
  unfold forceCloseDocument
  cases hfind : r.documents.findIdx? (fun d => d.id == docId) with
  | none => exact hinv
  | some index =>
      have hlt : index < r.documents.length :=
        (List.findIdx?_eq_some_iff_findIdx_eq.mp hfind).1
      show RegInv { documents := r.documents.eraseIdx index
                    activeDocIndex := adjustActiveIndex r.activeDocIndex
                      (r.documents.eraseIdx index).length index
                    tabIdCounter := r.tabIdCounter }
      have hne : r.documents ≠ [] := by
        intro hnil; rw [hnil] at hlt; simp at hlt
      have hlen : (r.documents.eraseIdx index).length
          = r.documents.length - 1 := by
        rw [List.length_eraseIdx, if_pos hlt]
      obtain ⟨hadj0, hadjpos⟩ :=
        regInv_adjust r.activeDocIndex r.documents.length
          (r.documents.eraseIdx index).length index hlt hlen ((hinv.2) hne)
      constructor
      · show (r.documents.eraseIdx index = []
          ↔ adjustActiveIndex r.activeDocIndex
              (r.documents.eraseIdx index).length index = -1)
        constructor
        · intro hnil
          exact hadj0 (by rw [hnil]; rfl)
        · intro hval
          by_cases hlen0 : (r.documents.eraseIdx index).length = 0
          · exact List.length_eq_zero.mp hlen0
          · have h2 := (hadjpos hlen0).1
            rw [hval] at h2
            omega
      · intro hne'
        have hlen0 : (r.documents.eraseIdx index).length ≠ 0 := by
          intro h0; exact hne' (List.length_eq_zero.mp h0)
        show 0 ≤ adjustActiveIndex r.activeDocIndex
              (r.documents.eraseIdx index).length index
          ∧ adjustActiveIndex r.activeDocIndex
              (r.documents.eraseIdx index).length index
            < ((r.documents.eraseIdx index).length : Int)
        exact hadjpos hlen0

theorem regInv_apply (pc : List Nat → Option Nat) (r : Registry) (op : RegOp)
    (hinv : RegInv r) : RegInv (applyRegOp pc r op) := by
  cases op with
  | openDoc bytes fileName => exact regInv_create pc r bytes fileName hinv
  | close docId => exact regInv_close r docId hinv
  | forceClose docId => exact regInv_forceClose r docId hinv

theorem regInv_runReg (pc : List Nat → Option Nat) (ops : List RegOp) :
    RegInv (runReg pc ops) := by
  rw [runReg]
  generalize hinit : initRegistry = r₀
  have h₀ : RegInv r₀ := hinit ▸ regInv_init
  clear hinit
  induction ops generalizing r₀ with
  | nil => simpa using h₀
  | cons op rest ih =>
      simpa using ih (applyRegOp pc r₀ op) (regInv_apply pc r₀ op h₀)

/-! ## `viewer.ts`: cancellation of overlapping page renders

`renderCurrentPage` (lines 41–85) tracks the single in-flight pdf.js render
task in the module variable `currentRenderTask`.  We model the world state
(tracked task, which tasks have had `cancel()` requested, which task's output
the canvas shows, the console error log) and split one call into the phase up
to starting the render (`beginRender`, lines 55–70) and the phase where the
awaited task settles (`settleRender`, lines 71–84), so that a second call can
be interleaved between the two, as in the overlap scenario.

pdf.js contract: a task whose `cancel()` was requested rejects with a
`RenderingCancelledException` and paints nothing; an un-cancelled task either
resolves (and paints) or rejects with its own error (`outcome`). -/

structure RenderWorld where
  currentRenderTask : Option Nat
  cancelledTasks : List Nat
  canvas : Option Nat
  errorLog : List String
deriving Repr, DecidableEq

/-- `/cancel/i.test(String(err))`: the error text contains `"cancel"`,
case-insensitively. -/
def listContainsSub (s sub : List Char) : Bool :=
  match s with
  | [] => sub.isEmpty
  | _ :: rest => sub.isPrefixOf s || listContainsSub rest sub

def isCancelMessage (msg : String) : Bool :=
  listContainsSub (msg.data.map Char.toLower) ("cancel".data)

/-- Lines 55–70: request cancellation of any in-flight task, then start the
new render task and track it. -/
def beginRender (w : RenderWorld) (taskId : Nat) : RenderWorld :=
  let w1 := match w.currentRenderTask with
    | some t => { w with cancelledTasks := w.cancelledTasks ++ [t] }
    | none => w
  { w1 with currentRenderTask := some taskId }

/-- What one call observes when its awaited task settles; `innerResult` is
what escapes the inner `try/catch/finally` (lines 71–81), `callerResult` is
what the caller of `renderCurrentPage` sees after the outer `try/catch`
(lines 45, 82–84) — which logs every error and rethrows nothing. -/
structure SettleResult where
  world : RenderWorld
  innerResult : Except String Unit
  callerResult : Except String Unit
deriving Repr

def settleRender (w : RenderWorld) (taskId : Nat) (outcome : Option String) :
    SettleResult :=
  let eff : Option String :=
    if taskId ∈ w.cancelledTasks then
      some "RenderingCancelledException: Rendering cancelled"
    else outcome
  match eff with
  | none =>
      ⟨{ w with canvas := some taskId, currentRenderTask := none },
        .ok (), .ok ()⟩
  | some msg =>
      if isCancelMessage msg then
        ⟨{ w with currentRenderTask := none }, .ok (), .ok ()⟩
      else
        ⟨{ w with currentRenderTask := none, errorLog := w.errorLog ++ [msg] },
          .error msg, .ok ()⟩

/-! ## `downloadActiveDocument` (lines 823–867): export file naming

```ts
const sanitizedBase = doc.fileName
  .replace(/[<>:"/\\|?*]/g, '_')
  .replace(/\.pdf$/i, '')
  .trim();
const safeBaseName = sanitizedBase && !reservedNames.has(sanitizedBase.toUpperCase())
  ? sanitizedBase
  : `document-${Date.now()}`;
a.download = `${safeBaseName}_edited.pdf`;
```
String transformations are modelled on `String.data` character lists.
`Date.now()` is the parameter `now`. -/

def reservedChars : List Char := ['<', '>', ':', '"', '/', '\\', '|', '?', '*']

/-- `.replace(/[<>:"/\\|?*]/g, '_')`: every reserved character becomes an
underscore. -/
def replaceReservedChars (s : String) : String :=
  ⟨s.data.map fun c => if c ∈ reservedChars then '_' else c⟩

/-- `.replace(/\.pdf$/i, '')`: remove one trailing `.pdf`,
case-insensitively. -/
def stripPdfExt (s : String) : String :=
  if (".pdf".data).isSuffixOf (s.data.map Char.toLower) then
    ⟨s.data.take (s.data.length - 4)⟩
  else s

/-- `.trim()`: drop leading and trailing whitespace. -/
def jsTrim (s : String) : String :=
  ⟨((s.data.dropWhile Char.isWhitespace).reverse.dropWhile
      Char.isWhitespace).reverse⟩

def jsToUpper (s : String) : String := ⟨s.data.map Char.toUpper⟩

def reservedNames : List String :=
  ["CON", "PRN", "AUX", "NUL",
   "COM1", "COM2", "COM3", "COM4", "COM5", "COM6", "COM7", "COM8", "COM9",
   "LPT1", "LPT2", "LPT3", "LPT4", "LPT5", "LPT6", "LPT7", "LPT8", "LPT9"]

def sanitizedBase (fileName : String) : String :=
  jsTrim (stripPdfExt (replaceReservedChars fileName))

/-- The generated download file name of `downloadActiveDocument`. -/
def downloadName (fileName : String) (now : Nat) : String :=
  let base := sanitizedBase fileName
  let safeBaseName :=
    if base ≠ "" ∧ jsToUpper base ∉ reservedNames then base
    else "document-" ++ toString now
  safeBaseName ++ "_edited.pdf"

/-- Modelled from the spec: the claim's reading that `sanitizedBaseName` has
filesystem-reserved characters *stripped* (removed), everything else as in
`downloadActiveDocument`.  Used only to compare against the code's
behaviour, which replaces them with `'_'`. -/
def downloadNameStrippedSpec (fileName : String) (now : Nat) : String :=
  let base :=
    jsTrim (stripPdfExt ⟨fileName.data.filter fun c => c ∉ reservedChars⟩)
  let safeBaseName :=
    if base ≠ "" ∧ jsToUpper base ∉ reservedNames then base
    else "document-" ++ toString now
  safeBaseName ++ "_edited.pdf"

/-! ## Support lemmas for the snapshot and heap claims -/

theorem updateDocumentBytes_fields {pc : List Nat → Option Nat} {now : Nat}
    {doc : Document} {newBytes : List Nat} {d' : Document}
    (h : updateDocumentBytes pc now doc newBytes = .ok d') :
    d'.undoStack = doc.undoStack ++ [⟨doc.pageData, doc.pdfBytes⟩]
      ∧ d'.redoStack = [] ∧ d'.isDirty = true := by
  cases hpc : pc newBytes with
  | none =>
      exfalso
      unfold updateDocumentBytes pushUndoState at h
      rw [hpc] at h
      simp at h
  | some n =>
      obtain ⟨d₄, h4, hu, hr, -, -, -, hdirty⟩ :=
        updateDocumentBytes_ok pc now doc newBytes n hpc
      rw [h4] at h
      simp only [Except.ok.injEq] at h
      subst h
      exact ⟨hu, hr, hdirty⟩

/-- The deep copy taken by `pushUndoState` is independent of the live cell:
after the copy, overwriting the live cell does not change what the snapshot
reference yields, which stays the pre-mutation contents. -/
theorem pushSnapshotRef_independent {α : Type} (h : Arena α) (liveRef : Nat)
    (dflt : α) (hr : liveRef < h.cells.length) (v : α) :
    ((pushSnapshotRef h liveRef dflt).1.write liveRef v).read
        (pushSnapshotRef h liveRef dflt).2
      = h.read liveRef := by
  have hsnap : (pushSnapshotRef h liveRef dflt).2 = h.cells.length := rfl
  have hne : (pushSnapshotRef h liveRef dflt).2 ≠ liveRef := by
    rw [hsnap]; omega
  rw [Arena.read_write_ne _ _ _ _ hne]
  have halloc := Arena.read_alloc h ((h.read liveRef).getD dflt)
  show (h.alloc ((h.read liveRef).getD dflt)).1.read
      (h.alloc ((h.read liveRef).getD dflt)).2 = h.read liveRef
  rw [halloc]
  unfold Arena.read
  rw [List.getElem?_eq_getElem hr]
  rfl

/-! ## The claims -/

/-- C1: `undo` followed immediately by `redo` restores exactly the state
present before the `undo` (pdfBytes byte-for-byte, pageData, both stacks and
the dirty flag); and for any sequence of N `updateDocumentBytes` mutations on
a fresh document, N `undo` calls restore the original `pdfBytes` and page
metadata, after which N `redo` calls restore exactly the full post-mutation
state. -/
theorem claim1_undo_redo_roundtrip
    (pc : List Nat → Option Nat) (now : Nat)
    (doc : Document) (us : List DocumentSnapshot) (s : DocumentSnapshot)
    (hstack : doc.undoStack = us ++ [s])
    (m : Nat) (hm : pc s.pdfBytes = some m)
    (n : Nat) (hn : pc doc.pdfBytes = some n)
    (tab : Nat) (b0 : List Nat) (fileName : String) (n0 : Nat)
    (h0 : pc b0 = some n0)
    (bs : List (List Nat)) (hbs : ∀ b ∈ bs, (pc b).isSome) :
    (∃ d', undo pc doc = .ok (true, d')
      ∧ ∃ d'', redo pc d' = .ok (true, d'')
        ∧ d''.pdfBytes = doc.pdfBytes ∧ d''.pageData = doc.pageData
        ∧ d''.undoStack = doc.undoStack ∧ d''.redoStack = doc.redoStack
        ∧ d''.isDirty = doc.isDirty)
    ∧ (∃ dN, runUpdates pc now (mkDocument tab b0 fileName n0) bs = .ok dN
        ∧ ∃ dO, undoN pc bs.length dN = .ok dO
          ∧ dO.pdfBytes = b0
          ∧ dO.pageData = (mkDocument tab b0 fileName n0).pageData
          ∧ redoN pc bs.length dO = .ok dN) := by
  constructor
  · obtain ⟨d', hundo, hredo⟩ := redo_of_undo pc doc us s hstack m hm n hn
    exact ⟨d', hundo, refreshHandles doc, hredo, rfl, rfl, rfl, rfl, rfl⟩
  · have hg0 : goodDoc pc (mkDocument tab b0 fileName n0) := by
      refine ⟨by rw [show (mkDocument tab b0 fileName n0).pdfBytes = b0 from rfl, h0]; rfl, ?_, ?_⟩
      · intro t ht; simp [mkDocument] at ht
      · intro t ht; simp [mkDocument] at ht
    have hc0 : consistentHandles (mkDocument tab b0 fileName n0) := ⟨rfl, rfl⟩
    obtain ⟨dN, newSnaps, hrun, hgN, hcN, hustack, hslen, hshead, hnilcase⟩ :=
      runUpdates_ok pc now bs (mkDocument tab b0 fileName n0) hg0 hc0 hbs
    refine ⟨dN, hrun, ?_⟩
    have hcancel :=
      undoN_redoN_cancel pc bs.length dN hgN hcN
        (by rw [hustack]; simp [mkDocument, hslen])
    cases bs with
    | nil =>
        have hdN : dN = mkDocument tab b0 fileName n0 := hnilcase rfl
        subst hdN
        exact ⟨mkDocument tab b0 fileName n0, rfl, rfl, rfl, rfl⟩
    | cons b rest =>
        cases newSnaps with
        | nil => simp at hshead
        | cons snap0 tail =>
            have hsnap0 : snap0 =
                (⟨(mkDocument tab b0 fileName n0).pageData, b0⟩
                  : DocumentSnapshot) := by
              simp only [List.head?_cons, List.head?_cons, Option.map_some] at hshead
              exact Option.some_inj.mp hshead
            have hstackN : dN.undoStack = snap0 :: tail := by
              rw [hustack]
              simp [mkDocument]
            have htail : tail.length = rest.length := by
              simp at hslen
              omega
            obtain ⟨dO, hundoN, hOb, hOp, hOu⟩ :=
              undoN_restores pc tail.length dN snap0 tail rfl hstackN hgN
            rw [show tail.length + 1 = (b :: rest).length by simp [htail]]
              at hundoN
            refine ⟨dO, hundoN, by rw [hOb, hsnap0], by rw [hOp, hsnap0], ?_⟩
            rw [hundoN, exc_bind_ok] at hcancel
            exact hcancel

/-- Page-count function for concrete test runs: any nonempty buffer parses
and its page count is its length. -/
def w1pc : List Nat → Option Nat := fun b => if b.isEmpty then none else some b.length

def w1doc : Document :=
  { id := "doc-1", fileName := "a.pdf", pdfBytes := [8], pdfDocBytes := some [8]
    pdfJsDocBytes := some [8], pageData := [], undoStack := [⟨[], [7]⟩]
    redoStack := [], isDirty := true, currentPage := 1 }

theorem claim1_undo_redo_roundtrip_witness :
    (∃ d', undo w1pc w1doc = .ok (true, d')
      ∧ ∃ d'', redo w1pc d' = .ok (true, d'')
        ∧ d''.pdfBytes = w1doc.pdfBytes ∧ d''.pageData = w1doc.pageData
        ∧ d''.undoStack = w1doc.undoStack ∧ d''.redoStack = w1doc.redoStack
        ∧ d''.isDirty = w1doc.isDirty)
    ∧ (∃ dN, runUpdates w1pc 0 (mkDocument 0 [7] "a.pdf" 1) [[8], [9]] = .ok dN
        ∧ ∃ dO, undoN w1pc [[8], [9]].length dN = .ok dO
          ∧ dO.pdfBytes = [7]
          ∧ dO.pageData = (mkDocument 0 [7] "a.pdf" 1).pageData
          ∧ redoN w1pc [[8], [9]].length dO = .ok dN) :=
  claim1_undo_redo_roundtrip w1pc 0 w1doc [] ⟨[], [7]⟩ rfl 1 (by decide)
    1 (by decide) 0 [7] "a.pdf" 1 (by decide) [[8], [9]] (by decide)

def c2pc : List Nat → Option Nat := fun b => if b = [0] then some 1 else none

def c2doc : Document :=
  { id := "doc-1", fileName := "a.pdf", pdfBytes := [0], pdfDocBytes := some [0]
    pdfJsDocBytes := some [0], pageData := [⟨"page-0-0", 0, 0, false⟩]
    undoStack := [], redoStack := [], isDirty := false, currentPage := 1 }

/-- C2: claimed: a reparse failure in `updateDocumentBytes` surfaces the
error while leaving the document's prior in-memory state untouched.  The
code violates this: it pushes the undo snapshot, sets `isDirty` and assigns
`pdfBytes` *before* the fallible reparse, so at this failing input the
rejection carries a state whose `pdfBytes` is the new buffer while both
parsed handles still hold the old bytes, with the undo stack and dirty flag
already mutated. -/
theorem claim2_reparse_failure_mutates_state :
    ∃ e, updateDocumentBytes c2pc 0 c2doc [1] = .error e
      ∧ e.pdfBytes = [1]
      ∧ e.pdfDocBytes = some [0] ∧ e.pdfJsDocBytes = some [0]
      ∧ e.pdfDocBytes ≠ some e.pdfBytes
      ∧ e.undoStack = [⟨c2doc.pageData, [0]⟩] ∧ e.isDirty = true
      ∧ c2doc.undoStack = [] ∧ c2doc.isDirty = false := by
  refine ⟨_, rfl, rfl, rfl, rfl, by decide, rfl, rfl, rfl, rfl⟩

/-- C3: every successful `updateDocumentBytes` pushes exactly one snapshot
of the pre-mutation `pageData`/`pdfBytes` onto `undoStack`, empties
`redoStack` and sets `isDirty`; and the snapshot is a deep, independent
copy: in the heap model, overwriting the live cell after the snapshot was
taken leaves the snapshot cell at the pre-mutation contents. -/
theorem claim3_snapshot_push
    (pc : List Nat → Option Nat) (now : Nat) (doc : Document)
    (newBytes : List Nat) (d' : Document)
    (h : updateDocumentBytes pc now doc newBytes = .ok d')
    (hp : Arena (List PageData)) (pagesRef : Nat)
    (hpr : pagesRef < hp.cells.length) (newPages : List PageData)
    (hb : Arena (List Nat)) (bytesRef : Nat)
    (hbr : bytesRef < hb.cells.length) (newBuf : List Nat) :
    d'.undoStack = doc.undoStack ++ [⟨doc.pageData, doc.pdfBytes⟩]
    ∧ d'.redoStack = [] ∧ d'.isDirty = true
    ∧ ((pushSnapshotRef hp pagesRef []).1.write pagesRef newPages).read
          (pushSnapshotRef hp pagesRef []).2 = hp.read pagesRef
    ∧ ((pushSnapshotRef hb bytesRef []).1.write bytesRef newBuf).read
          (pushSnapshotRef hb bytesRef []).2 = hb.read bytesRef := by
  obtain ⟨h1, h2, h3⟩ := updateDocumentBytes_fields h
  exact ⟨h1, h2, h3, pushSnapshotRef_independent hp pagesRef [] hpr newPages,
    pushSnapshotRef_independent hb bytesRef [] hbr newBuf⟩

def w3pc : List Nat → Option Nat := fun b => some b.length

def w3doc : Document :=
  { id := "doc-1", fileName := "a.pdf", pdfBytes := [0], pdfDocBytes := some [0]
    pdfJsDocBytes := some [0], pageData := [⟨"p0", 0, 0, false⟩]
    undoStack := [], redoStack := [⟨[], [5]⟩], isDirty := false, currentPage := 1 }

def w3doc' : Document :=
  { w3doc with
    pdfBytes := [1], pdfDocBytes := some [1], pdfJsDocBytes := some [1]
    undoStack := [⟨w3doc.pageData, [0]⟩], redoStack := [], isDirty := true }

def w3pagesArena : Arena (List PageData) := ⟨[[⟨"p0", 0, 0, false⟩]]⟩

def w3bytesArena : Arena (List Nat) := ⟨[[0]]⟩

theorem claim3_snapshot_push_witness :
    w3doc'.undoStack = w3doc.undoStack ++ [⟨w3doc.pageData, w3doc.pdfBytes⟩]
    ∧ w3doc'.redoStack = [] ∧ w3doc'.isDirty = true
    ∧ ((pushSnapshotRef w3pagesArena 0 []).1.write 0 []).read
          (pushSnapshotRef w3pagesArena 0 []).2 = w3pagesArena.read 0
    ∧ ((pushSnapshotRef w3bytesArena 0 []).1.write 0 [9]).read
          (pushSnapshotRef w3bytesArena 0 []).2 = w3bytesArena.read 0 :=
  claim3_snapshot_push w3pc 0 w3doc [1] w3doc' rfl
    w3pagesArena 0 (by decide) [] w3bytesArena 0 (by decide) [9]

/-- C4: for any sequence of document creation (open), `closeDocument` and
`forceCloseDocument` calls starting from the empty registry,
`activeDocIndex` is a valid index into `documents` whenever the sequence is
non-empty, and equals `-1` iff the sequence is empty. -/
theorem claim4_active_index_invariant (pc : List Nat → Option Nat)
    (ops : List RegOp) :
    ((runReg pc ops).documents = [] ↔ (runReg pc ops).activeDocIndex = -1)
    ∧ ((runReg pc ops).documents ≠ [] →
        0 ≤ (runReg pc ops).activeDocIndex
        ∧ (runReg pc ops).activeDocIndex < (runReg pc ops).documents.length) :=
  regInv_runReg pc ops

/-- C5: `closeDocument` on a dirty document returns `false` and leaves the
registry unchanged (the document present, all state intact), while
`forceCloseDocument` removes the document — here shown on the same dirty
document, so removal does not depend on the dirty flag. -/
theorem claim5_dirty_close_guard
    (r : Registry) (docId : String) (index : Nat) (doc : Document)
    (hfind : r.documents.findIdx? (fun d => d.id == docId) = some index)
    (hget : r.documents[index]? = some doc)
    (hdirty : doc.isDirty = true) :
    closeDocument r docId = (r, false)
    ∧ (forceCloseDocument r docId).documents = r.documents.eraseIdx index
    ∧ (forceCloseDocument r docId).documents.length
        = r.documents.length - 1 := by
  have hlt : index < r.documents.length :=
    (List.findIdx?_eq_some_iff_findIdx_eq.mp hfind).1
  refine ⟨?_, ?_, ?_⟩
  · unfold closeDocument
    rw [hfind]
    show (match r.documents[index]? with
      | none => (r, false)
      | some doc =>
          if doc.isDirty = true then (r, false)
          else ({ documents := r.documents.eraseIdx index
                  activeDocIndex := adjustActiveIndex r.activeDocIndex
                    (r.documents.eraseIdx index).length index
                  tabIdCounter := r.tabIdCounter }, true)) = (r, false)
    rw [hget]
    show (if doc.isDirty = true then (r, false) else _) = (r, false)
    rw [hdirty]
    simp
  · unfold forceCloseDocument
    rw [hfind]
  · unfold forceCloseDocument
    rw [hfind]
    show (r.documents.eraseIdx index).length = r.documents.length - 1
    rw [List.length_eraseIdx, if_pos hlt]

def w5doc : Document :=
  { id := "doc-9", fileName := "b.pdf", pdfBytes := [0], pdfDocBytes := some [0]
    pdfJsDocBytes := some [0], pageData := [], undoStack := []
    redoStack := [], isDirty := true, currentPage := 1 }

def w5reg : Registry := ⟨[w5doc], 0, 9⟩

theorem claim5_dirty_close_guard_witness :
    closeDocument w5reg "doc-9" = (w5reg, false)
    ∧ (forceCloseDocument w5reg "doc-9").documents = w5reg.documents.eraseIdx 0
    ∧ (forceCloseDocument w5reg "doc-9").documents.length
        = w5reg.documents.length - 1 :=
  claim5_dirty_close_guard w5reg "doc-9" 0 w5doc (by decide) (by decide) rfl

def c6w0 : RenderWorld := ⟨none, [], none, []⟩

/-- C6 counterexample: the claim says a render error that is not a
cancellation propagates to the caller of `renderCurrentPage`.  At this
concrete input the non-cancellation error `"boom"` escapes the inner
`try/catch` but is swallowed by the function's outer `catch` (lines 82–84),
which only logs it: the caller sees a normal return, not a rejection. -/
theorem claim6_error_propagation_counterexample :
    isCancelMessage "boom" = false
    ∧ (settleRender (beginRender c6w0 1) 1 (some "boom")).innerResult
        = .error "boom"
    ∧ (settleRender (beginRender c6w0 1) 1 (some "boom")).callerResult
        = .ok ()
    ∧ (settleRender (beginRender c6w0 1) 1 (some "boom")).callerResult
        ≠ .error "boom"
    ∧ (settleRender (beginRender c6w0 1) 1 (some "boom")).world.errorLog
        = ["boom"] := by
  refine ⟨by decide, rfl, rfl, ?_, rfl⟩
  intro hcontra
  exact Except.noConfusion hcontra

/-- C6 (amended): when a second `renderCurrentPage` starts while a previous
render task is in flight, the previous task is cancelled before the new
render starts; the resulting cancellation rejection is a non-error no-op
(nothing painted, nothing thrown); exactly the newer render's output ends up
on the canvas; and a render error that is not a cancellation is rethrown
past the inner handler but caught and logged by `renderCurrentPage`'s outer
handler, so it never propagates to the caller. -/
theorem claim6_render_cancellation_amended
    (w0 : RenderWorld) (a b : Nat) (oA : Option String)
    (hcur : w0.currentRenderTask = none)
    (hb : b ∉ w0.cancelledTasks) (hab : b ≠ a)
    (w : RenderWorld) (t : Nat) (msg : String)
    (ht : t ∉ w.cancelledTasks) (hmsg : isCancelMessage msg = false) :
    (beginRender (beginRender w0 a) b).cancelledTasks
        = w0.cancelledTasks ++ [a]
    ∧ (beginRender (beginRender w0 a) b).currentRenderTask = some b
    ∧ (settleRender (beginRender (beginRender w0 a) b) a oA).innerResult
        = .ok ()
    ∧ (settleRender (beginRender (beginRender w0 a) b) a oA).callerResult
        = .ok ()
    ∧ (settleRender (beginRender (beginRender w0 a) b) a oA).world.canvas
        = (beginRender (beginRender w0 a) b).canvas
    ∧ (settleRender
        (settleRender (beginRender (beginRender w0 a) b) a oA).world
        b none).world.canvas = some b
    ∧ (settleRender
        (settleRender (beginRender (beginRender w0 a) b) a oA).world
        b none).callerResult = .ok ()
    ∧ (settleRender w t (some msg)).innerResult = .error msg
    ∧ (settleRender w t (some msg)).callerResult = .ok ()
    ∧ (settleRender w t (some msg)).world.errorLog = w.errorLog ++ [msg] := by
  have hw1 : beginRender w0 a = { w0 with currentRenderTask := some a } := by
    unfold beginRender
    rw [hcur]
  have hw2 : beginRender (beginRender w0 a) b
      = { w0 with
          cancelledTasks := w0.cancelledTasks ++ [a]
          currentRenderTask := some b } := by
    rw [hw1]
    unfold beginRender
    rfl
  have hcanc : isCancelMessage
      "RenderingCancelledException: Rendering cancelled" = true := by decide
  have hamem : a ∈ w0.cancelledTasks ++ [a] := by simp
  have hsA : settleRender (beginRender (beginRender w0 a) b) a oA
      = ⟨{ w0 with
            cancelledTasks := w0.cancelledTasks ++ [a]
            currentRenderTask := none }, .ok (), .ok ()⟩ := by
    rw [hw2]
    unfold settleRender
    rw [if_pos hamem]
    show (if isCancelMessage
        "RenderingCancelledException: Rendering cancelled" = true
      then _ else _) = _
    rw [hcanc]
    simp
  have hbmem : b ∉ w0.cancelledTasks ++ [a] := by
    intro hx
    rcases List.mem_append.mp hx with h1 | h1
    · exact hb h1
    · exact hab (List.mem_singleton.mp h1)
  have hsB : settleRender
      (settleRender (beginRender (beginRender w0 a) b) a oA).world b none
      = ⟨{ w0 with
            cancelledTasks := w0.cancelledTasks ++ [a]
            currentRenderTask := none
            canvas := some b }, .ok (), .ok ()⟩ := by
    rw [hsA]
    unfold settleRender
    rw [if_neg hbmem]
  have hsErr : settleRender w t (some msg)
      = ⟨{ w with
            currentRenderTask := none
            errorLog := w.errorLog ++ [msg] }, .error msg, .ok ()⟩ := by
    unfold settleRender
    rw [if_neg ht]
    show (if isCancelMessage msg = true then _ else _) = _
    rw [hmsg]
    simp
  refine ⟨by rw [hw2], by rw [hw2], by rw [hsA], by rw [hsA], ?_,
    by rw [hsB], by rw [hsB], by rw [hsErr], by rw [hsErr], by rw [hsErr]⟩
  rw [hsA, hw2]

theorem claim6_render_cancellation_amended_witness :
    (beginRender (beginRender c6w0 1) 2).cancelledTasks
        = c6w0.cancelledTasks ++ [1]
    ∧ (beginRender (beginRender c6w0 1) 2).currentRenderTask = some 2
    ∧ (settleRender (beginRender (beginRender c6w0 1) 2) 1 none).innerResult
        = .ok ()
    ∧ (settleRender (beginRender (beginRender c6w0 1) 2) 1 none).callerResult
        = .ok ()
    ∧ (settleRender (beginRender (beginRender c6w0 1) 2) 1 none).world.canvas
        = (beginRender (beginRender c6w0 1) 2).canvas
    ∧ (settleRender
        (settleRender (beginRender (beginRender c6w0 1) 2) 1 none).world
        2 none).world.canvas = some 2
    ∧ (settleRender
        (settleRender (beginRender (beginRender c6w0 1) 2) 1 none).world
        2 none).callerResult = .ok ()
    ∧ (settleRender c6w0 3 (some "boom")).innerResult = .error "boom"
    ∧ (settleRender c6w0 3 (some "boom")).callerResult = .ok ()
    ∧ (settleRender c6w0 3 (some "boom")).world.errorLog
        = c6w0.errorLog ++ ["boom"] :=
  claim6_render_cancellation_amended c6w0 1 2 none rfl (by decide) (by decide)
    c6w0 3 "boom" (by decide) (by decide)

/-- C7: OCR targets are processed sequentially in ascending page-number
order (the selection invariant makes the target list strictly ascending);
and for pages `[1,2,3]` where page 2's recognition fails, the final output
is page 1's block, then page 2's header followed by the `[Error during OCR]`
placeholder, then page 3's block — in page order, the run continuing past
the failure. -/
theorem claim7_ocr_partial_failure
    (ops : List SelOp) (currentPage : Int)
    (recog : Int → OcrPageResult) (t1 t3 : String)
    (h1 : recog 1 = .ok t1) (h2 : recog 2 = .err) (h3 : recog 3 = .ok t3) :
    List.Sorted (· < ·)
      (ocrTargets (runSel ops).selectedPageIndices currentPage)
    ∧ ocr recog [1, 2, 3]
        = ("--- Page 1 ---\n" ++ t1 ++ "\n\n")
          ++ "--- Page 2 ---\n[Error during OCR]\n\n"
          ++ ("--- Page 3 ---\n" ++ t3 ++ "\n\n") := by
  refine ⟨ocrTargets_sorted ops currentPage, ?_⟩
  have hb1 : ocrBlock recog 1 = "--- Page 1 ---\n" ++ t1 ++ "\n\n" := by
    unfold ocrBlock
    rw [h1]
    rw [show ocrPageHeader 1 = "--- Page 1 ---\n" from by decide]
  have hb2 : ocrBlock recog 2 = "--- Page 2 ---\n[Error during OCR]\n\n" := by
    unfold ocrBlock
    rw [h2]
    decide
  have hb3 : ocrBlock recog 3 = "--- Page 3 ---\n" ++ t3 ++ "\n\n" := by
    unfold ocrBlock
    rw [h3]
    rw [show ocrPageHeader 3 = "--- Page 3 ---\n" from by decide]
  unfold ocr
  rw [if_neg (ocrLoop_ne_empty recog 1 [2, 3])]
  show ((("" : String) ++ ocrBlock recog 1) ++ ocrBlock recog 2)
      ++ ocrBlock recog 3 = _
  rw [String.empty_append, hb1, hb2, hb3]

def w7recog : Int → OcrPageResult := fun n =>
  if n = 1 then .ok "ONE" else if n = 3 then .ok "THREE" else .err

theorem claim7_ocr_partial_failure_witness :
    List.Sorted (· < ·)
      (ocrTargets (runSel [.select 2, .select 0]).selectedPageIndices 1)
    ∧ ocr w7recog [1, 2, 3]
        = ("--- Page 1 ---\n" ++ "ONE" ++ "\n\n")
          ++ "--- Page 2 ---\n[Error during OCR]\n\n"
          ++ ("--- Page 3 ---\n" ++ "THREE" ++ "\n\n") :=
  claim7_ocr_partial_failure [.select 2, .select 0] 1 w7recog "ONE" "THREE"
    (by decide) (by decide) (by decide)

/-- C8 counterexample: the claim says that recognizing only blank pages
(each page's text empty) reports the sentinel `[No text recognized]`.  At
this concrete input — one blank page — the accumulated output is the page
header block, which is nonempty, so the code reports it instead of the
sentinel. -/
theorem claim8_blank_page_counterexample :
    ocr (fun _ => .ok "") [1] = "--- Page 1 ---\n\n\n"
    ∧ ocr (fun _ => .ok "") [1] ≠ "[No text recognized]" := by
  constructor <;> decide

/-- C8 (amended): the sentinel `[No text recognized]` is reported exactly
when the accumulated output is the empty string, which happens precisely
when no page was processed; blank pages still contribute their `--- Page n
---` header blocks, so a run over blank pages reports those headers, not
the sentinel. -/
theorem claim8_empty_output_sentinel_amended
    (recog : Int → OcrPageResult) (targets : List Int) :
    (ocr recog targets = "[No text recognized]") ↔ targets = [] :=
  ocr_sentinel_iff recog targets

theorem string_mk_length (l : List Char) : (⟨l⟩ : String).length = l.length :=
  rfl

theorem jsToUpper_length (s : String) : (jsToUpper s).length = s.length := by
  show (s.data.map Char.toUpper).length = s.length
  rw [List.length_map]
  rfl

/-- C9 counterexample: the claim says `sanitizedBaseName` has
filesystem-reserved characters *stripped*.  The code replaces them with
underscores instead: for `"a<b.pdf"` the generated name is
`"a_b_edited.pdf"`, while stripping (as a spec-literal model does) would
give `"ab_edited.pdf"`. -/
theorem claim9_strip_counterexample :
    downloadName "a<b.pdf" 7 = "a_b_edited.pdf"
    ∧ downloadNameStrippedSpec "a<b.pdf" 7 = "ab_edited.pdf"
    ∧ downloadName "a<b.pdf" 7 ≠ downloadNameStrippedSpec "a<b.pdf" 7 := by
  refine ⟨by decide, by decide, by decide⟩

/-- C9 (amended): the exported file is named
`{sanitizedBaseName}_edited.pdf` where `sanitizedBaseName` has
filesystem-reserved characters replaced by underscores (not stripped);
`"report.pdf"` yields `"report_edited.pdf"`; `"CON.pdf"` (a reserved device
name) falls back to the timestamp-based `document-{now}` base and is never
literally `"CON_edited.pdf"`; and in general the base of the generated name
is never empty and never a reserved device name. -/
theorem claim9_download_name_amended (fileName : String) (now : Nat) :
    downloadName "report.pdf" now = "report_edited.pdf"
    ∧ downloadName "CON.pdf" now
        = ("document-" ++ toString now) ++ "_edited.pdf"
    ∧ downloadName "CON.pdf" now ≠ "CON_edited.pdf"
    ∧ ∃ base, downloadName fileName now = base ++ "_edited.pdf"
        ∧ base ≠ "" ∧ jsToUpper base ∉ reservedNames := by
  have hcon : downloadName "CON.pdf" now
      = ("document-" ++ toString now) ++ "_edited.pdf" := by
    unfold downloadName
    show (if sanitizedBase "CON.pdf" ≠ ""
          ∧ jsToUpper (sanitizedBase "CON.pdf") ∉ reservedNames
        then sanitizedBase "CON.pdf"
        else "document-" ++ toString now) ++ "_edited.pdf" = _
    rw [show sanitizedBase "CON.pdf" = "CON" from by decide]
    rw [if_neg (by decide)]
  refine ⟨?_, hcon, ?_, ?_⟩
  · unfold downloadName
    show (if sanitizedBase "report.pdf" ≠ ""
          ∧ jsToUpper (sanitizedBase "report.pdf") ∉ reservedNames
        then sanitizedBase "report.pdf"
        else "document-" ++ toString now) ++ "_edited.pdf" = _
    rw [show sanitizedBase "report.pdf" = "report" from by decide]
    rw [if_pos (by decide)]
    decide
  · intro heq
    rw [hcon] at heq
    have hlen := congrArg String.length heq
    rw [String.length_append, String.length_append] at hlen
    rw [show ("document-" : String).length = 9 from rfl,
      show ("_edited.pdf" : String).length = 11 from rfl,
      show ("CON_edited.pdf" : String).length = 14 from rfl] at hlen
    omega
  · by_cases hc : sanitizedBase fileName ≠ ""
        ∧ jsToUpper (sanitizedBase fileName) ∉ reservedNames
    · refine ⟨sanitizedBase fileName, ?_, hc.1, hc.2⟩
      unfold downloadName
      show (if sanitizedBase fileName ≠ ""
            ∧ jsToUpper (sanitizedBase fileName) ∉ reservedNames
          then sanitizedBase fileName
          else "document-" ++ toString now) ++ "_edited.pdf" = _
      rw [if_pos hc]
    · refine ⟨"document-" ++ toString now, ?_, ?_, ?_⟩
      · unfold downloadName
        show (if sanitizedBase fileName ≠ ""
              ∧ jsToUpper (sanitizedBase fileName) ∉ reservedNames
            then sanitizedBase fileName
            else "document-" ++ toString now) ++ "_edited.pdf" = _
        rw [if_neg hc]
      · intro hempty
        have hlen := congrArg String.length hempty
        rw [String.length_append,
          show ("document-" : String).length = 9 from rfl,
          show ("" : String).length = 0 from rfl] at hlen
        omega
      · intro hmem
        have hall : ∀ r ∈ reservedNames, r.length ≤ 4 := by decide
        have hle := hall _ hmem
        rw [jsToUpper_length, String.length_append,
          show ("document-" : String).length = 9 from rfl] at hle
        omega

/-- C10: every selection operation keeps `state.selectedPageIndices`
strictly sorted (ascending) and duplicate-free, and `getSelectedPages`
returns a fresh copy: in the heap model the returned reference holds the
same elements, and writing through it leaves the stored selection
unchanged. -/
theorem claim10_selection_invariant
    (ops : List SelOp) (h : Arena (List Int)) (stateRef : Nat)
    (hr : stateRef < h.cells.length) (v : List Int) :
    List.Sorted (· < ·) (runSel ops).selectedPageIndices
    ∧ (runSel ops).selectedPageIndices.Nodup
    ∧ (getSelectedPagesH h stateRef).1.read (getSelectedPagesH h stateRef).2
        = some ((h.read stateRef).getD [])
    ∧ ((getSelectedPagesH h stateRef).1.write
          (getSelectedPagesH h stateRef).2 v).read stateRef
        = h.read stateRef := by
  refine ⟨runSel_sorted ops, (runSel_sorted ops).nodup, ?_, ?_⟩
  · exact Arena.read_alloc h _
  · have hne : stateRef ≠ (getSelectedPagesH h stateRef).2 := by
      show stateRef ≠ h.cells.length
      omega
    rw [Arena.read_write_ne _ _ _ _ hne]
    exact Arena.read_alloc_old h _ stateRef hr

def w10arena : Arena (List Int) := ⟨[[1, 2]]⟩

def w10ops : List SelOp := [.select 3, .select 1, .toggle 2, .deselect 3]

theorem claim10_selection_invariant_witness :
    List.Sorted (· < ·) (runSel w10ops).selectedPageIndices
    ∧ (runSel w10ops).selectedPageIndices.Nodup
    ∧ (getSelectedPagesH w10arena 0).1.read (getSelectedPagesH w10arena 0).2
        = some ((w10arena.read 0).getD [])
    ∧ ((getSelectedPagesH w10arena 0).1.write
          (getSelectedPagesH w10arena 0).2 [9]).read 0
        = w10arena.read 0 :=
  claim10_selection_invariant w10ops w10arena 0 (by decide) [9]

end BentoPDF
